import Mathlib

/-!
Verification of the rustos kernel core against its specification.

The Lean definitions below are shallow embeddings of the Rust sources:
  * src/kern/src/allocator/bin.rs and src/kern/src/allocator/util.rs
    (bin allocator),
  * src/kern/src/vm/pagetable.rs (page tables),
  * src/kern/src/process/scheduler.rs and src/kern/src/process/process.rs
    (scheduler and loader),
  * src/kern/src/traps/syscall.rs (sleep syscall).

usize / u64 values are modelled as `Nat`; wrap-around and saturation are
made explicit where the Rust code can overflow.  Rust panics are modelled
by `Option`/partiality of the embedded function (`none` = panic).
-/

namespace RustOS

/-! ## Bin allocator (src/kern/src/allocator/bin.rs, util.rs) -/

/-- Number of size-class bins, `NUM_BINS` in bin.rs (11, largest class 8192 bytes). -/
def NUM_BINS : Nat := 11

/-- One past the largest `usize` value (the kernel is 64-bit). -/
def USIZE_LIMIT : Nat := 2 ^ 64

/-- Auxiliary for `countOnes`: scan the 64 bits of a `usize`. -/
def countOnesAux : Nat → Nat → Nat
  | 0, _ => 0
  | fuel + 1, n => n % 2 + countOnesAux fuel (n / 2)

/-- Number of set bits, the model of Rust `usize::count_ones` (64-bit). -/
def countOnes (n : Nat) : Nat := countOnesAux 64 n

/-- `align_up` from allocator/util.rs.  Returns `none` on panic: `align` with
more than one set bit (not a power of two), a zero divisor, or the aligned
address overflowing `usize` (the `aligned_addr < addr` check in the source). -/
def align_up (addr align : Nat) : Option Nat :=
  if countOnes align > 1 then none
  else if align = 0 then none
  else
    let rem := addr % align
    let a := if rem = 0 then addr else addr + (align - rem)
    if a ≥ USIZE_LIMIT then none else some a

/-- The `while idx < NUM_BINS-1 && size_req > bin_size` loop of `bin_index`
in bin.rs, with `fuel = (NUM_BINS - 1) - idx` making the `idx < NUM_BINS-1`
bound explicit. -/
def binIndexLoop (sizeReq : Nat) : Nat → Nat → Nat → Nat
  | idx, _, 0 => idx
  | idx, binSize, fuel + 1 =>
    if sizeReq > binSize then binIndexLoop sizeReq (idx + 1) (binSize * 2) fuel else idx

/-- `bin_index` from bin.rs: effective size is `max(size, align)`;
the index is found by doubling from bin size 8, clamped to `NUM_BINS - 1`. -/
def bin_index (size align : Nat) : Nat :=
  let size_req := if align > size then align else size
  binIndexLoop size_req 0 8 (NUM_BINS - 1)

/-- The `while bidxc > 0 { size_req *= 2; bidxc -= 1 }` loop in the slow path
of `alloc` in bin.rs (computes the class size `8 * 2^bidx`). -/
def classSizeLoop : Nat → Nat → Nat
  | acc, 0 => acc
  | acc, b + 1 => classSizeLoop (acc * 2) b

/-- The bin allocator state: bump cursor `current`, region end `endp`
(`end` in the source), and the `NUM_BINS` free lists (head = most recently
pushed, matching the intrusive `LinkedList` used by the source). -/
structure Allocator where
  current : Nat
  endp : Nat
  bins : List (List Nat)

/-- `Allocator::new` from bin.rs. -/
def Allocator.new (start end_ : Nat) : Allocator :=
  ⟨start, end_, List.replicate NUM_BINS []⟩

/-- `Allocator::alloc` from bin.rs.  The outer `Option` is panic
(only reachable through `align_up` overflow); the inner `Option Nat` is the
returned pointer, `none` being the null return.  `saturating_add` is modelled
by `min _ (USIZE_LIMIT - 1)`. -/
def Allocator.alloc (s : Allocator) (size align : Nat) :
    Option (Option Nat × Allocator) :=
  if size ≤ 0 ∨ countOnes align > 1 then some (none, s)
  else
    let bidx := bin_index size align
    match (s.bins.getD bidx []) with
    | p :: rest => some (some p, { s with bins := s.bins.set bidx rest })
    | [] =>
      let size_req := classSizeLoop 8 bidx
      let orig := s.current
      match align_up orig size_req with
      | none => none
      | some start =>
        let cur := min (start + size_req) (USIZE_LIMIT - 1)
        if cur > s.endp then some (none, s)
        else if start - orig > s.endp - cur then
          some (some start, { s with current := orig, endp := cur - 1 })
        else
          some (some start, { s with current := cur })

/-- `Allocator::dealloc` from bin.rs: push the pointer on the free list of
the layout's bin.  (The `LinkedList` push/pop are head operations; the list
type itself is outside src/, its LIFO behaviour is the one stated by the
spec and relied on by bin.rs.) -/
def Allocator.dealloc (s : Allocator) (ptr size align : Nat) : Allocator :=
  let bidx := bin_index size align
  { s with bins := s.bins.set bidx (ptr :: s.bins.getD bidx []) }

/-- Run a sequence of `alloc` calls, collecting the returned pointers;
`none` propagates a panic. -/
def Allocator.allocSeq (s : Allocator) :
    List (Nat × Nat) → Option (List (Option Nat) × Allocator)
  | [] => some ([], s)
  | (sz, al) :: rest =>
    match s.alloc sz al with
    | none => none
    | some (r, s') =>
      match s'.allocSeq rest with
      | none => none
      | some (rs, s'') => some (r :: rs, s'')

/-- Claim C1: for a sequence of `alloc` calls (size > 0, power-of-two
alignment, no dealloc) the returned blocks, each extending for its effective
class size, are claimed pairwise disjoint.  The code violates this: starting
from region [0, 9000), the calls alloc(8,8), alloc(4096,4096),
alloc(2048,2048), alloc(2048,2048) return 0, 4096, 2048 and 4096: the second
call's block [4096, 4096+4096) and the fourth call's block [4096, 4096+2048)
overlap (they share the start address 4096).  The fragmentation heuristic
truncated `end` to the end of the second block (instead of to its start) and
reset `current` below it, so the block was handed out again. -/
theorem bin_alloc_overlapping_blocks :
    (((Allocator.new 0 9000).allocSeq
        [(8, 8), (4096, 4096), (2048, 2048), (2048, 2048)]).map Prod.fst
      = some [some 0, some 4096, some 2048, some 4096])
    ∧ classSizeLoop 8 (bin_index 4096 4096) = 4096
    ∧ classSizeLoop 8 (bin_index 2048 2048) = 2048
    ∧ ¬ (4096 + 4096 ≤ 4096 ∨ 4096 + 2048 ≤ 4096) := by
  refine ⟨by decide, by decide, by decide, by decide⟩

/-- Claim C3: every non-null `alloc(size, align)` result is claimed to be a
multiple of `align` and of `2^(ceil_log2(max(size,align)))`, with
`addr + effective class size` inside the original region.  The code violates
this for layouts above the largest bin (8 KiB): from region [8192, 20000),
`alloc(65536, 65536)` (the 64 KiB page layout) returns 8192, which is not a
multiple of the requested 65536 alignment, and 8192 + 65536 exceeds the
region end; the bin index is clamped to `NUM_BINS - 1`, so only an
8192-byte, 8192-aligned block is reserved. -/
theorem bin_alloc_misaligned_large_layout :
    (((Allocator.new 8192 20000).alloc 65536 65536).map Prod.fst
      = some (some 8192))
    ∧ bin_index 65536 65536 = NUM_BINS - 1
    ∧ classSizeLoop 8 (bin_index 65536 65536) = 8192
    ∧ 8192 % 65536 ≠ 0
    ∧ 20000 < 8192 + 65536 := by
  refine ⟨by decide, by decide, by decide, by decide, by decide⟩

/-! ## Page tables (src/kern/src/vm/pagetable.rs) -/

/-- Modelled from the spec: `param.rs` is not under src/; spec §6 fixes the
translation granule: "Page size = 64 KiB". -/
def PAGE_SIZE : Nat := 65536

/-- All 64 bits set (for clearing a field of a raw descriptor). -/
def U64_MASK : Nat := 2 ^ 64 - 1

/-- Modelled from the spec: the `RawL3Entry` field layout of the external
`aarch64::vmsa` crate is not under src/.  Spec §3 and the comment at
pagetable.rs:215 give: attribute bits [10:0] (validity bit 0, page-type
bit 1, memory attribute, access permission, shareability, access flag
bit 10) and the ADDR field in bits [47:16].  A field is a (mask, shift)
pair; `get_value`/`set_value` extract/insert through the mask. -/
def VALID_MASK : Nat := 1

/-- ADDR field mask, bits [47:16] of a raw descriptor. -/
def ADDR_MASK : Nat := (2 ^ 32 - 1) * 2 ^ 16

/-- `set_value(v, FIELD)`: clear the field then insert `v` shifted into it. -/
def setBits (raw mask shift v : Nat) : Nat :=
  (raw &&& (U64_MASK ^^^ mask)) ||| ((v <<< shift) &&& mask)

/-- A page table's three L3 tables, each a list of 8192 raw 64-bit L3
descriptors (the fixed, immutable L2 table of pagetable.rs is not part of
the mutable state the claims are about). -/
structure PageTable where
  l3 : List (List Nat)

/-- Well-formedness: exactly three L3 tables of 8192 entries, as in the
`PageTable` struct of pagetable.rs. -/
def PageTable.wf (pt : PageTable) : Prop :=
  pt.l3.length = 3 ∧ ∀ t ∈ pt.l3, t.length = 8192

/-- `PageTable::locate` from pagetable.rs: panics (`none`) if the address is
not page-aligned or its L2 index exceeds 2; otherwise returns
`(l2_index, l3_index)` extracted with the masks `0x3ffe0000000` (bits
[41:29]) and `0x1fff0000` (bits [28:16]) from the source. -/
def PageTable.locate (va : Nat) : Option (Nat × Nat) :=
  if va % PAGE_SIZE ≠ 0 then none
  else if (va &&& 0x3ffe0000000) >>> 29 > 2 then none
  else some ((va &&& 0x3ffe0000000) >>> 29, (va &&& 0x1fff0000) >>> 16)

/-- Raw L3 entry addressed by a table-relative virtual address
(`self.l3[l2_index].entries[l3_index]`). -/
def PageTable.entryAt (pt : PageTable) (l2 l3 : Nat) : Nat :=
  (pt.l3.getD l2 []).getD l3 0

/-- `PageTable::is_valid` from pagetable.rs (`none` = `locate` panic):
the VALID bit of the located entry. -/
def PageTable.isValidVA (pt : PageTable) (va : Nat) : Option Bool :=
  (PageTable.locate va).map fun p =>
    decide (pt.entryAt p.1 p.2 &&& VALID_MASK = 1)

/-- `PageTable::set_entry` from pagetable.rs (`none` = `locate` panic). -/
def PageTable.setEntry (pt : PageTable) (va raw : Nat) : Option PageTable :=
  (PageTable.locate va).map fun p =>
    ⟨pt.l3.set p.1 ((pt.l3.getD p.1 []).set p.2 raw)⟩

/-- The `IntoIterator` for `&mut PageTable` at pagetable.rs:198: it chains
the entries of `l3[0]` and `l3[1]` only — the third table `l3[2]` is not
part of the iterator. -/
def PageTable.iterEntries (pt : PageTable) : List Nat :=
  pt.l3.getD 0 [] ++ pt.l3.getD 1 []

/-- The `Drop` impl for `UserPageTable` at pagetable.rs:338: for every
iterated entry whose VALID bit is set (the swapped-argument
`get_value(EntryValid::Valid) == RawL3Entry::VALID` call evaluates to the
plain bit-0 test, both the field mask and the value being 1), call
`ALLOCATOR.dealloc(ADDR << 16, Page::layout())`.  Returns the list of
`(pointer, size, align)` dealloc calls performed, in order. -/
def PageTable.dropDeallocs (pt : PageTable) : List (Nat × Nat × Nat) :=
  pt.iterEntries.filterMap fun raw =>
    if raw &&& VALID_MASK = 1 then
      some (((raw &&& ADDR_MASK) >>> 16) <<< 16, PAGE_SIZE, PAGE_SIZE)
    else none

/-- Number of valid (mapped) L3 entries across all three L3 tables. -/
def PageTable.validCount (pt : PageTable) : Nat :=
  (pt.l3.getD 0 [] ++ pt.l3.getD 1 [] ++ pt.l3.getD 2 []).countP
    fun raw => decide (raw &&& VALID_MASK = 1)

/-- A user page table whose only mapped page sits in the third L3 table
(l2 index 2, l3 index 0), with ADDR field 5 (physical page 5 · 2^16). -/
def leakPT : PageTable :=
  ⟨[List.replicate 8192 0, List.replicate 8192 0,
    (1 + 5 * 2 ^ 16) :: List.replicate 8191 0]⟩

theorem countP_replicate (f : α → Bool) (a : α) (n : Nat) :
    (List.replicate n a).countP f = if f a then n else 0 := by
  induction n with
  | zero => simp
  | succ n ih =>
    rw [List.replicate_succ, List.countP_cons, ih]
    cases h : f a <;> simp [h]

theorem filterMap_replicate_none {f : α → Option β} {a : α} (h : f a = none)
    (n : Nat) : (List.replicate n a).filterMap f = [] := by
  induction n with
  | zero => simp
  | succ n ih => rw [List.replicate_succ, List.filterMap_cons, h, ih]

/-- Claim C2: dropping a user page table with N valid L3 entries across its
three L3 tables is claimed to perform exactly N deallocations.  The code
violates this: the `IntoIterator` impl chains only `l3[0]` and `l3[1]`, so a
table whose single mapped page lies in the third L3 table performs zero
deallocations on drop (the page leaks) although its valid-entry count is 1. -/
theorem userPageTable_drop_leaks_third_table :
    leakPT.wf
    ∧ PageTable.validCount leakPT = 1
    ∧ PageTable.dropDeallocs leakPT = [] := by
  refine ⟨⟨rfl, ?_⟩, ?_, ?_⟩
  · exact List.forall_mem_cons.2 ⟨List.length_replicate _ _,
      List.forall_mem_cons.2 ⟨List.length_replicate _ _,
        List.forall_mem_cons.2 ⟨by rw [List.length_cons, List.length_replicate],
          List.forall_mem_nil _⟩⟩⟩
  · show (List.replicate 8192 0 ++ List.replicate 8192 0 ++
      ((1 + 5 * 2 ^ 16) :: List.replicate 8191 0)).countP _ = 1
    rw [List.countP_append, List.countP_append, List.countP_cons,
      countP_replicate, countP_replicate]
    decide
  · show (List.replicate 8192 0 ++ List.replicate 8192 0).filterMap _ = []
    rw [List.filterMap_append, filterMap_replicate_none (by decide),
      List.append_nil]

/-! ### Bit-level helpers for the mask arithmetic of `locate` and the
raw descriptor fields -/

theorem land_mask (x n m : Nat) :
    x &&& ((2 ^ m - 1) * 2 ^ n) = x / 2 ^ n % 2 ^ m * 2 ^ n := by
  have h1 : (2 ^ m - 1) * 2 ^ n = (2 ^ m - 1) <<< n := (Nat.shiftLeft_eq _ _).symm
  have h2 : x / 2 ^ n % 2 ^ m * 2 ^ n = (x >>> n % 2 ^ m) <<< n := by
    rw [Nat.shiftLeft_eq, Nat.shiftRight_eq_div_pow]
  rw [h1, h2]
  apply Nat.eq_of_testBit_eq
  intro i
  rw [Nat.testBit_land, Nat.testBit_shiftLeft, Nat.testBit_shiftLeft,
    Nat.testBit_two_pow_sub_one, Nat.testBit_mod_two_pow, Nat.testBit_shiftRight]
  by_cases h : n ≤ i
  · rw [Nat.add_sub_cancel' h]
    cases hx : x.testBit i <;> cases hm : decide (i - n < m) <;>
      simp [hx, hm, ge_iff_le, h]
  · simp [ge_iff_le, h]

/-- `locate`'s mask-and-shift arithmetic, in divide/mod form. -/
theorem locate_char (rel : Nat) :
    PageTable.locate rel =
      if rel % PAGE_SIZE ≠ 0 then none
      else if rel / 2 ^ 29 % 2 ^ 13 > 2 then none
      else some (rel / 2 ^ 29 % 2 ^ 13, rel / 2 ^ 16 % 2 ^ 13) := by
  have e2 : (rel &&& 0x3ffe0000000) >>> 29 = rel / 2 ^ 29 % 2 ^ 13 := by
    rw [show (0x3ffe0000000 : Nat) = (2 ^ 13 - 1) * 2 ^ 29 from by norm_num,
      land_mask, Nat.shiftRight_eq_div_pow, Nat.mul_div_cancel _ (by norm_num)]
  have e3 : (rel &&& 0x1fff0000) >>> 16 = rel / 2 ^ 16 % 2 ^ 13 := by
    rw [show (0x1fff0000 : Nat) = (2 ^ 13 - 1) * 2 ^ 16 from by norm_num,
      land_mask, Nat.shiftRight_eq_div_pow, Nat.mul_div_cancel _ (by norm_num)]
  unfold PageTable.locate
  rw [e2, e3]

/-- Claim C7: every page-aligned virtual address `va` in
`[USER_IMG_BASE, USER_IMG_BASE + 3 * 8192 * PAGE_SIZE)` — with
`USER_IMG_BASE` a page-aligned base, as the loader requires — decomposes
through `locate (va - USER_IMG_BASE)` into `l2 < 3` and `l3 < 8192`, and
reassembling `USER_IMG_BASE + l2 * 2^29 + l3 * 2^16` reproduces `va`. -/
theorem locate_decompose_roundtrip (base va : Nat)
    (hbase : base % PAGE_SIZE = 0) (hva : va % PAGE_SIZE = 0)
    (hlo : base ≤ va) (hhi : va < base + 3 * 8192 * PAGE_SIZE) :
    ∃ l2 l3, PageTable.locate (va - base) = some (l2, l3)
      ∧ l2 < 3 ∧ l3 < 8192
      ∧ base + (l2 * 2 ^ 29 + l3 * 2 ^ 16) = va := by
  have hP : PAGE_SIZE = 65536 := rfl
  rw [hP] at hbase hva hhi
  have h1 : (va - base) % 65536 = 0 := by omega
  have h2 : va - base < 1610612736 := by omega
  have e29 : (2 : Nat) ^ 29 = 536870912 := by norm_num
  have e16 : (2 : Nat) ^ 16 = 65536 := by norm_num
  have e13 : (2 : Nat) ^ 13 = 8192 := by norm_num
  have hl2 : (va - base) / 2 ^ 29 % 2 ^ 13 ≤ 2 := by rw [e29, e13]; omega
  refine ⟨(va - base) / 2 ^ 29 % 2 ^ 13, (va - base) / 2 ^ 16 % 2 ^ 13,
    ?_, ?_, ?_, ?_⟩
  · rw [locate_char, hP, if_neg (by omega), if_neg (by omega)]
  · omega
  · rw [e16, e13]; omega
  · rw [e29, e16, e13]
    rw [e29, e13] at hl2
    omega

/-- Witness for C7 at base 65536 and va = 65536 + 2^29 + 5 * 65536
(l2 = 1, l3 = 5). -/
theorem locate_decompose_roundtrip_witness :
    (65536 % PAGE_SIZE = 0 ∧ (65536 + 2 ^ 29 + 5 * 65536) % PAGE_SIZE = 0
      ∧ 65536 ≤ 65536 + 2 ^ 29 + 5 * 65536
      ∧ 65536 + 2 ^ 29 + 5 * 65536 < 65536 + 3 * 8192 * PAGE_SIZE)
    ∧ ∃ l2 l3,
        PageTable.locate ((65536 + 2 ^ 29 + 5 * 65536) - 65536) = some (l2, l3)
        ∧ l2 < 3 ∧ l3 < 8192
        ∧ 65536 + (l2 * 2 ^ 29 + l3 * 2 ^ 16) = 65536 + 2 ^ 29 + 5 * 65536 :=
  ⟨⟨by decide, by decide, by decide, by decide⟩,
    locate_decompose_roundtrip 65536 (65536 + 2 ^ 29 + 5 * 65536)
      (by decide) (by decide) (by decide) (by decide)⟩

/-! ### User page-table allocation (UserPageTable::alloc) -/

/-- The raw L3 descriptor built by `UserPageTable::alloc` in pagetable.rs:
VALID, page TYPE, normal-memory ATTR, USER_RW AP, inner-shareable SH, AF
set, and ADDR = physical address right-shifted by 16.  The concrete field
positions/values are the spec-modelled ones described at `VALID_MASK`. -/
def mkUserL3Entry (addr : Nat) : Nat :=
  setBits (setBits (setBits (setBits (setBits (setBits (setBits 0
    1 0 1) 2 1 1) 28 2 0) 192 6 1) 768 8 3) 1024 10 1) ADDR_MASK 16 (addr >>> 16)

theorem mkUserL3Entry_eq (addr : Nat) :
    mkUserL3Entry addr = 1859 ||| (addr >>> 16 % 2 ^ 32) * 2 ^ 16 := by
  have h1 : setBits (setBits (setBits (setBits (setBits (setBits 0
      1 0 1) 2 1 1) 28 2 0) 192 6 1) 768 8 3) 1024 10 1 = 1859 := by decide
  unfold mkUserL3Entry
  rw [h1]
  unfold setBits
  rw [show (1859 &&& (U64_MASK ^^^ ADDR_MASK)) = 1859 from by decide]
  congr 1
  rw [Nat.shiftLeft_eq,
    show ADDR_MASK = (2 ^ 32 - 1) * 2 ^ 16 from rfl, land_mask,
    Nat.mul_div_cancel _ (by norm_num)]

theorem mkUserL3Entry_valid (addr : Nat) :
    mkUserL3Entry addr &&& VALID_MASK = 1 := by
  rw [mkUserL3Entry_eq, show VALID_MASK = 1 from rfl, Nat.and_distrib_right,
    show (1859 : Nat) &&& 1 = 1 from by decide, Nat.and_one_is_mod]
  have h : (addr >>> 16 % 2 ^ 32) * 2 ^ 16 % 2 = 0 := by
    rw [show (2 : Nat) ^ 16 = 65536 from by norm_num]
    omega
  rw [h, Nat.or_zero]

theorem mkUserL3Entry_addrField (addr : Nat) :
    (mkUserL3Entry addr &&& ADDR_MASK) >>> 16 = addr >>> 16 % 2 ^ 32 := by
  rw [mkUserL3Entry_eq, Nat.and_distrib_right,
    show (1859 : Nat) &&& ADDR_MASK = 0 from by decide, Nat.zero_or,
    show ADDR_MASK = (2 ^ 32 - 1) * 2 ^ 16 from rfl, land_mask,
    Nat.mul_div_cancel _ (by norm_num), Nat.mod_mod_of_dvd _ dvd_rfl,
    Nat.shiftRight_eq_div_pow, Nat.mul_div_cancel _ (by norm_num)]

/-- `UserPageTable::alloc` from pagetable.rs, with `USER_IMG_BASE` as the
(spec-modelled, page-aligned) parameter `base` and the global allocator's
answer for the 64 KiB page layout passed in as `allocResult` (`none` = null
pointer).  The result is `none` on panic; otherwise the updated page table
and the start address of the returned page-sized writable view. -/
def UserPageTable.alloc (base : Nat) (pt : PageTable) (va : Nat)
    (allocResult : Option Nat) : Option (PageTable × Nat) :=
  if va < base then none
  else
    match pt.isValidVA (va - base) with
    | none => none
    | some true => none
    | some false =>
      match allocResult with
      | none => none
      | some addr =>
        match pt.setEntry (va - base) (mkUserL3Entry addr) with
        | none => none
        | some pt2 => some (pt2, addr)

/-- Index bound on the L3 index produced by `locate`. -/
theorem locate_l3_lt (rel l2 l3 : Nat)
    (h : PageTable.locate rel = some (l2, l3)) : l3 < 8192 := by
  rw [locate_char] at h
  by_cases h1 : rel % PAGE_SIZE ≠ 0
  · rw [if_pos h1] at h; cases h
  · rw [if_neg h1] at h
    by_cases h2 : rel / 2 ^ 29 % 2 ^ 13 > 2
    · rw [if_pos h2] at h; cases h
    · rw [if_neg h2] at h
      cases h
      have : rel / 2 ^ 16 % 2 ^ 13 < 2 ^ 13 := Nat.mod_lt _ (by norm_num)
      omega

/-- Index bound on the L2 index produced by `locate`. -/
theorem locate_l2_lt (rel l2 l3 : Nat)
    (h : PageTable.locate rel = some (l2, l3)) : l2 < 3 := by
  rw [locate_char] at h
  by_cases h1 : rel % PAGE_SIZE ≠ 0
  · rw [if_pos h1] at h; cases h
  · rw [if_neg h1] at h
    by_cases h2 : rel / 2 ^ 29 % 2 ^ 13 > 2
    · rw [if_pos h2] at h; cases h
    · rw [if_neg h2] at h
      cases h
      omega

/-- The length of each L3 table of a well-formed page table. -/
theorem wf_table_length (pt : PageTable) (hwf : pt.wf) (i : Nat) (hi : i < 3) :
    (pt.l3.getD i []).length = 8192 := by
  have hi' : i < pt.l3.length := by rw [hwf.1]; exact hi
  rw [List.getD_eq_getElem?_getD, List.getElem?_eq_getElem hi']
  exact hwf.2 _ (List.getElem_mem hi')

/-- Effect of `setEntry` on `entryAt`: the targeted slot gets the new raw
value, all other slots are unchanged. -/
theorem setEntry_entryAt (pt : PageTable) (hwf : pt.wf) (rel raw l2 l3 : Nat)
    (hloc : PageTable.locate rel = some (l2, l3)) (pt2 : PageTable)
    (hset : pt.setEntry rel raw = some pt2) :
    pt2.entryAt l2 l3 = raw
    ∧ ∀ i j, ¬(i = l2 ∧ j = l3) → pt2.entryAt i j = pt.entryAt i j := by
  have hl2 : l2 < 3 := locate_l2_lt rel l2 l3 hloc
  have hl3 : l3 < 8192 := locate_l3_lt rel l2 l3 hloc
  have hl2' : l2 < pt.l3.length := by rw [hwf.1]; exact hl2
  have htlen : (pt.l3.getD l2 []).length = 8192 := wf_table_length pt hwf l2 hl2
  have hpt2 : pt2 = ⟨pt.l3.set l2 ((pt.l3.getD l2 []).set l3 raw)⟩ := by
    unfold PageTable.setEntry at hset
    rw [hloc] at hset
    exact (Option.some.inj hset).symm
  subst hpt2
  have houter : ∀ L : List Nat, (pt.l3.set l2 L).getD l2 [] = L := by
    intro L
    rw [List.getD_eq_getElem?_getD, List.getElem?_set_self hl2', Option.getD_some]
  have houter' : ∀ (L : List Nat) i, l2 ≠ i →
      (pt.l3.set l2 L).getD i [] = pt.l3.getD i [] := by
    intro L i hi
    rw [List.getD_eq_getElem?_getD, List.getElem?_set_ne hi,
      ← List.getD_eq_getElem?_getD]
  constructor
  · show ((pt.l3.set l2 _).getD l2 []).getD l3 0 = raw
    rw [houter, List.getD_eq_getElem?_getD,
      List.getElem?_set_self (by rw [htlen]; exact hl3), Option.getD_some]
  · intro i j hij
    show ((pt.l3.set l2 _).getD i []).getD j 0 = (pt.l3.getD i []).getD j 0
    by_cases hi : l2 = i
    · subst hi
      have hj : l3 ≠ j := fun h => hij ⟨rfl, h.symm⟩
      rw [houter, List.getD_eq_getElem?_getD, List.getElem?_set_ne hj,
        ← List.getD_eq_getElem?_getD]
    · rw [houter' _ _ hi]

/-- Claim C8: `UserPageTable::alloc(va, perm)` panics iff `va < USER_IMG_BASE`,
or the table-relative address `va - USER_IMG_BASE` is not page-aligned or
decodes to an L2 index ≥ 3, or `va` is already mapped, or the physical
allocator returns null.  Otherwise it installs exactly one valid L3 entry at
`locate (va - USER_IMG_BASE)` carrying the allocated page's address in its
ADDR field, leaves every other entry unchanged, and returns the allocated
page's address as the start of the writable page view. -/
theorem userAlloc_panic_iff_and_maps_one_page
    (base : Nat) (pt : PageTable) (va : Nat) (ar : Option Nat)
    (hwf : pt.wf) :
    (UserPageTable.alloc base pt va ar = none ↔
      va < base ∨ (va - base) % PAGE_SIZE ≠ 0
        ∨ 2 < (va - base) / 2 ^ 29 % 2 ^ 13
        ∨ pt.isValidVA (va - base) = some true
        ∨ ar = none)
    ∧ (∀ pt2 addr, UserPageTable.alloc base pt va ar = some (pt2, addr) →
        ar = some addr
        ∧ ∃ l2 l3, PageTable.locate (va - base) = some (l2, l3)
            ∧ pt2.entryAt l2 l3 = mkUserL3Entry addr
            ∧ mkUserL3Entry addr &&& VALID_MASK = 1
            ∧ (mkUserL3Entry addr &&& ADDR_MASK) >>> 16 = addr >>> 16 % 2 ^ 32
            ∧ ∀ i j, ¬(i = l2 ∧ j = l3) →
                pt2.entryAt i j = pt.entryAt i j) := by
  have halloc : UserPageTable.alloc base pt va ar =
      (if va < base then none
       else
         match pt.isValidVA (va - base) with
         | none => none
         | some true => none
         | some false =>
           match ar with
           | none => none
           | some addr =>
             match pt.setEntry (va - base) (mkUserL3Entry addr) with
             | none => none
             | some pt2 => some (pt2, addr)) := rfl
  by_cases hb : va < base
  · have h0 : UserPageTable.alloc base pt va ar = none := by
      rw [halloc, if_pos hb]
    exact ⟨iff_of_true h0 (Or.inl hb),
      fun pt2 addr h => Option.noConfusion (h0.symm.trans h)⟩
  · rw [if_neg hb] at halloc
    by_cases h1 : (va - base) % PAGE_SIZE ≠ 0
    · have hloc : PageTable.locate (va - base) = none := by
        rw [locate_char, if_pos h1]
      have hv : pt.isValidVA (va - base) = none := by
        rw [PageTable.isValidVA, hloc]; rfl
      rw [hv] at halloc
      have h0 : UserPageTable.alloc base pt va ar = none := halloc.trans rfl
      exact ⟨iff_of_true h0 (Or.inr (Or.inl h1)),
        fun pt2 addr h => Option.noConfusion (h0.symm.trans h)⟩
    · by_cases h2 : 2 < (va - base) / 2 ^ 29 % 2 ^ 13
      · have hloc : PageTable.locate (va - base) = none := by
          rw [locate_char, if_neg h1, if_pos h2]
        have hv : pt.isValidVA (va - base) = none := by
          rw [PageTable.isValidVA, hloc]; rfl
        rw [hv] at halloc
        have h0 : UserPageTable.alloc base pt va ar = none := halloc.trans rfl
        exact ⟨iff_of_true h0 (Or.inr (Or.inr (Or.inl h2))),
          fun pt2 addr h => Option.noConfusion (h0.symm.trans h)⟩
      · have hloc : PageTable.locate (va - base) =
            some ((va - base) / 2 ^ 29 % 2 ^ 13, (va - base) / 2 ^ 16 % 2 ^ 13) := by
          rw [locate_char, if_neg h1, if_neg h2]
        by_cases h3 : pt.isValidVA (va - base) = some true
        · rw [h3] at halloc
          have h0 : UserPageTable.alloc base pt va ar = none := halloc.trans rfl
          exact ⟨iff_of_true h0 (Or.inr (Or.inr (Or.inr (Or.inl h3)))),
            fun pt2 addr h => Option.noConfusion (h0.symm.trans h)⟩
        · have hval : pt.isValidVA (va - base)
              = some (decide (pt.entryAt ((va - base) / 2 ^ 29 % 2 ^ 13)
                  ((va - base) / 2 ^ 16 % 2 ^ 13) &&& VALID_MASK = 1)) := by
            rw [PageTable.isValidVA, hloc]; rfl
          have hvfalse : pt.isValidVA (va - base) = some false := by
            cases hd : decide (pt.entryAt ((va - base) / 2 ^ 29 % 2 ^ 13)
                ((va - base) / 2 ^ 16 % 2 ^ 13) &&& VALID_MASK = 1) with
            | true => exact absurd (hval.trans (by rw [hd])) h3
            | false => exact hval.trans (by rw [hd])
          rw [hvfalse] at halloc
          cases ar with
          | none =>
            have h0 : UserPageTable.alloc base pt va none = none := halloc.trans rfl
            exact ⟨iff_of_true h0 (Or.inr (Or.inr (Or.inr (Or.inr rfl)))),
              fun pt2 addr h => Option.noConfusion (h0.symm.trans h)⟩
          | some a =>
            have hset : pt.setEntry (va - base) (mkUserL3Entry a) =
                some ⟨pt.l3.set ((va - base) / 2 ^ 29 % 2 ^ 13)
                  ((pt.l3.getD ((va - base) / 2 ^ 29 % 2 ^ 13) []).set
                    ((va - base) / 2 ^ 16 % 2 ^ 13) (mkUserL3Entry a))⟩ := by
              rw [PageTable.setEntry, hloc]; rfl
            have halloc2 : UserPageTable.alloc base pt va (some a) =
                (match pt.setEntry (va - base) (mkUserL3Entry a) with
                 | none => none
                 | some pt2 => some (pt2, a)) := halloc.trans rfl
            rw [hset] at halloc2
            have h0 : UserPageTable.alloc base pt va (some a) =
                some (⟨pt.l3.set ((va - base) / 2 ^ 29 % 2 ^ 13)
                  ((pt.l3.getD ((va - base) / 2 ^ 29 % 2 ^ 13) []).set
                    ((va - base) / 2 ^ 16 % 2 ^ 13) (mkUserL3Entry a))⟩, a) :=
              halloc2.trans rfl
            constructor
            · refine iff_of_false (fun h => Option.noConfusion (h0.symm.trans h)) ?_
              rintro (h | h | h | h | h)
              · exact hb h
              · exact h1 h
              · exact h2 h
              · exact Bool.noConfusion (Option.some.inj (hvfalse.symm.trans h))
              · exact Option.noConfusion h
            · intro pt2 addr h
              have hinj := Option.some.inj (h0.symm.trans h)
              have haddr : a = addr := congrArg Prod.snd hinj
              subst haddr
              have hpt2 : pt.setEntry (va - base) (mkUserL3Entry a) = some pt2 := by
                rw [hset]
                exact congrArg some (congrArg Prod.fst hinj)
              obtain ⟨hmain, hrest⟩ :=
                setEntry_entryAt pt hwf (va - base) (mkUserL3Entry a) _ _ hloc pt2 hpt2
              exact ⟨rfl, _, _, hloc, hmain, mkUserL3Entry_valid a,
                mkUserL3Entry_addrField a, hrest⟩

/-- A fresh user page table: all L3 entries invalid (raw 0), as produced by
`PageTable::new` (whose three pre-populated L2 descriptors are fixed). -/
def emptyPT : PageTable :=
  ⟨[List.replicate 8192 0, List.replicate 8192 0, List.replicate 8192 0]⟩

theorem emptyPT_wf : emptyPT.wf :=
  ⟨rfl, List.forall_mem_cons.2 ⟨List.length_replicate _ _,
    List.forall_mem_cons.2 ⟨List.length_replicate _ _,
      List.forall_mem_cons.2 ⟨List.length_replicate _ _,
        List.forall_mem_nil _⟩⟩⟩⟩

/-- Witness for C8: a fresh table, base 65536, va 65536, allocator answer
131072. -/
theorem userAlloc_panic_iff_and_maps_one_page_witness :
    emptyPT.wf
    ∧ ((UserPageTable.alloc 65536 emptyPT 65536 (some 131072) = none ↔
        (65536 : Nat) < 65536 ∨ (65536 - 65536) % PAGE_SIZE ≠ 0
          ∨ 2 < (65536 - 65536) / 2 ^ 29 % 2 ^ 13
          ∨ emptyPT.isValidVA (65536 - 65536) = some true
          ∨ (some 131072 : Option Nat) = none)
      ∧ (∀ pt2 addr,
          UserPageTable.alloc 65536 emptyPT 65536 (some 131072) = some (pt2, addr) →
          (some 131072 : Option Nat) = some addr
          ∧ ∃ l2 l3, PageTable.locate (65536 - 65536) = some (l2, l3)
              ∧ pt2.entryAt l2 l3 = mkUserL3Entry addr
              ∧ mkUserL3Entry addr &&& VALID_MASK = 1
              ∧ (mkUserL3Entry addr &&& ADDR_MASK) >>> 16 = addr >>> 16 % 2 ^ 32
              ∧ ∀ i j, ¬(i = l2 ∧ j = l3) →
                  pt2.entryAt i j = emptyPT.entryAt i j)) :=
  ⟨emptyPT_wf,
    userAlloc_panic_iff_and_maps_one_page 65536 emptyPT 65536 (some 131072) emptyPT_wf⟩

/-! ## Scheduler (src/kern/src/process/scheduler.rs, process.rs) -/

/-- The saved architectural state, mirroring `TrapFrame` in traps/frame.rs
(u64/u128 registers as `Nat`). -/
structure TrapFrame where
  elr_el1 : Nat
  spsr_el1 : Nat
  sp_el0 : Nat
  tpidr_el0 : Nat
  ttbr0_el1 : Nat
  ttbr1_el1 : Nat
  q : List Nat
  x : List Nat
  xzr : Nat

/-- `TrapFrame::default()`: all registers zero. -/
def TrapFrame.default : TrapFrame :=
  ⟨0, 0, 0, 0, 0, 0, List.replicate 32 0, List.replicate 30 0, 0⟩

/-- Modelled from the spec: `State` lives in process/state.rs which is not
under src/.  Spec §3: one of Ready, Running, Waiting(poll), Dead, where
`poll` is a predicate that may mutate the process to stage syscall return
values.  A poll is modelled as a function of the current wall time (the
in-kernel `current_time()` the real closures read) and the process's saved
trap frame, returning the fired flag and the mutated frame. -/
inductive PState where
  | ready
  | running
  | waiting (poll : Nat → TrapFrame → Bool × TrapFrame)
  | dead

/-- Does the state match `State::Running`? -/
def PState.isRunning : PState → Bool
  | .running => true
  | _ => false

/-- A process: saved trap frame (`context`) and scheduling state, as in
process.rs (the page table plays no role in the scheduler claims). -/
structure Process where
  context : TrapFrame
  state : PState

/-- `Process::is_ready` from process.rs: Ready is ready; Waiting polls its
predicate, transitioning to Ready when it fires and staying Waiting (with
the possibly mutated frame) otherwise; Running and Dead are not ready. -/
def Process.isReady (now : Nat) (p : Process) : Bool × Process :=
  match p.state with
  | .waiting f =>
    match f now p.context with
    | (true, ctx) => (true, ⟨ctx, .ready⟩)
    | (false, ctx) => (false, ⟨ctx, .waiting f⟩)
  | .ready => (true, p)
  | .running => (false, p)
  | .dead => (false, p)

/-- `u64::MAX`. -/
def U64_MAX : Nat := 2 ^ 64 - 1

/-- The scheduler: the process queue (front first, as the `VecDeque`) and
`last_id`. -/
structure Scheduler where
  processes : List Process
  last_id : Option Nat

/-- `Scheduler::new()` from scheduler.rs: empty queue, `last_id = Some(0)`. -/
def Scheduler.new : Scheduler := ⟨[], some 0⟩

/-- `Scheduler::add` from scheduler.rs: allocate the next id
(`checked_add` overflow returns `None` leaving the queue untouched), store
it in the process's `tpidr_el0`, push at the back. -/
def Scheduler.add (s : Scheduler) (p : Process) : Option Nat × Scheduler :=
  match s.last_id with
  | none =>
    (some 1,
      ⟨s.processes ++ [{ p with context := { p.context with tpidr_el0 := 1 } }],
        some 1⟩)
  | some id =>
    if id = U64_MAX then (none, s)
    else
      (some (id + 1),
        ⟨s.processes ++
            [{ p with context := { p.context with tpidr_el0 := id + 1 } }],
          some (id + 1)⟩)

/-- The search loop of `Scheduler::schedule_out`: find the first process
whose `tpidr_el0` equals the trap frame's and whose state is `Running`,
returning it and the queue with it removed. -/
def removeFirstRunning (tp : Nat) : List Process → Option (Process × List Process)
  | [] => none
  | p :: ps =>
    if p.context.tpidr_el0 == tp && p.state.isRunning then some (p, ps)
    else
      match removeFirstRunning tp ps with
      | none => none
      | some (q, rest) => some (q, p :: rest)

/-- `Scheduler::schedule_out` from scheduler.rs: if a matching Running
process exists, set its state to `new_state`, overwrite its saved frame
with the live `tf`, move it to the back, and return `true`; otherwise
return `false` with the queue unchanged. -/
def Scheduler.scheduleOut (s : Scheduler) (newState : PState) (tf : TrapFrame) :
    Bool × Scheduler :=
  match removeFirstRunning tf.tpidr_el0 s.processes with
  | none => (false, s)
  | some (p, rest) =>
    (true, ⟨rest ++ [{ p with state := newState, context := tf }], s.last_id⟩)

/-- The `iter_mut`/`is_ready` scan of `Scheduler::switch_to`: every process
before the first ready one is polled (and possibly mutated); returns the
updated prefix and, if found, the ready process and the untouched suffix. -/
def switchScan (now : Nat) : List Process → List Process × Option (Process × List Process)
  | [] => ([], none)
  | p :: ps =>
    match Process.isReady now p with
    | (true, p1) => ([], some (p1, ps))
    | (false, p1) =>
      match switchScan now ps with
      | (pre, r) => (p1 :: pre, r)

/-- `Scheduler::switch_to` from scheduler.rs: select the first ready
process, restore its saved frame into the live `tf`, mark it Running, move
it to the front, and return its id; `none` when no process is ready. -/
def Scheduler.switchTo (s : Scheduler) (now : Nat) (tf : TrapFrame) :
    Option Nat × TrapFrame × Scheduler :=
  match switchScan now s.processes with
  | (pre, none) => (none, tf, ⟨pre, s.last_id⟩)
  | (pre, some (p, suf)) =>
    (some p.context.tpidr_el0, p.context,
      ⟨{ p with state := .running } :: (pre ++ suf), s.last_id⟩)

/-- `Scheduler::kill` from scheduler.rs: schedule out the current process
as Dead, then pop the back of the queue and drop that process, returning
its id. -/
def Scheduler.kill (s : Scheduler) (tf : TrapFrame) : Option Nat × Scheduler :=
  let s1 := (s.scheduleOut .dead tf).2
  match s1.processes.getLast? with
  | none => (none, s1)
  | some p => (some p.context.tpidr_el0, ⟨s1.processes.dropLast, s1.last_id⟩)

/-- One round of `GlobalScheduler::switch`: `schedule_out` followed by
`switch_to` on the same live trap frame (the source loops on `switch_to`
with `wfi` until a process is ready; a single round suffices whenever some
process is ready). -/
def Scheduler.switch (s : Scheduler) (newState : PState) (now : Nat) (tf : TrapFrame) :
    Option Nat × TrapFrame × Scheduler :=
  (s.scheduleOut newState tf).2.switchTo now tf

/-- `n` successive `switch(Ready, tf)` calls with the trap frame threaded
through, collecting the selected ids. -/
def Scheduler.switchReadyN (s : Scheduler) : Nat → Nat → TrapFrame →
    List (Option Nat) × TrapFrame × Scheduler
  | 0, _, tf => ([], tf, s)
  | n + 1, now, tf =>
    let r := s.switch .ready now tf
    let rest := (r.2.2).switchReadyN n now r.2.1
    (r.1 :: rest.1, rest.2)

/-- An arbitrary later scheduler interaction (for "never happens again"
claims). -/
inductive SchedOp where
  | add (p : Process)
  | schedOut (st : PState) (tf : TrapFrame)
  | switchTo (now : Nat) (tf : TrapFrame)
  | switch (st : PState) (now : Nat) (tf : TrapFrame)
  | kill (tf : TrapFrame)

/-- Apply one operation, discarding its outputs. -/
def Scheduler.runOp (s : Scheduler) : SchedOp → Scheduler
  | .add p => (s.add p).2
  | .schedOut st tf => (s.scheduleOut st tf).2
  | .switchTo now tf => (s.switchTo now tf).2.2
  | .switch st now tf => (s.switch st now tf).2.2
  | .kill tf => (s.kill tf).2

/-- Apply a list of operations in order. -/
def Scheduler.runOps (s : Scheduler) (ops : List SchedOp) : Scheduler :=
  ops.foldl Scheduler.runOp s

/-- The value of `last_id` (`None` orders below every assigned id). -/
def lastIdVal : Option Nat → Nat
  | none => 0
  | some l => l

theorem add_result (s : Scheduler) (p : Process) (i : Nat)
    (h : (s.add p).1 = some i) :
    i = lastIdVal s.last_id + 1 ∧ (s.add p).2.last_id = some i := by
  cases hl : s.last_id with
  | none =>
    simp only [Scheduler.add, hl] at h ⊢
    cases h
    exact ⟨rfl, rfl⟩
  | some l =>
    by_cases hm : l = U64_MAX
    · simp only [Scheduler.add, hl, if_pos hm] at h
      cases h
    · simp only [Scheduler.add, hl, if_neg hm] at h ⊢
      cases h
      exact ⟨rfl, rfl⟩

theorem scheduleOut_lastId (s : Scheduler) (st : PState) (tf : TrapFrame) :
    ((s.scheduleOut st tf).2).last_id = s.last_id := by
  unfold Scheduler.scheduleOut
  cases removeFirstRunning tf.tpidr_el0 s.processes with
  | none => rfl
  | some pr => rfl

theorem switchTo_lastId (s : Scheduler) (now : Nat) (tf : TrapFrame) :
    ((s.switchTo now tf).2.2).last_id = s.last_id := by
  unfold Scheduler.switchTo
  cases h : switchScan now s.processes with
  | mk pre r =>
    cases r with
    | none => rfl
    | some pr => rfl

theorem kill_lastId (s : Scheduler) (tf : TrapFrame) :
    ((s.kill tf).2).last_id = s.last_id := by
  have h0 := scheduleOut_lastId s .dead tf
  unfold Scheduler.kill
  cases h : ((s.scheduleOut .dead tf).2).processes.getLast? with
  | none => simpa [h] using h0
  | some p => simpa [h] using h0

theorem runOp_lastId_mono (s : Scheduler) (op : SchedOp) :
    lastIdVal s.last_id ≤ lastIdVal (s.runOp op).last_id := by
  cases op with
  | add p =>
    show lastIdVal s.last_id ≤ lastIdVal (s.add p).2.last_id
    cases hl : s.last_id with
    | none => simp [Scheduler.add, hl, lastIdVal]
    | some l =>
      by_cases hm : l = U64_MAX
      · simp [Scheduler.add, hl, if_pos hm]
      · simp [Scheduler.add, hl, if_neg hm, lastIdVal]
  | schedOut st tf => rw [show (s.runOp (.schedOut st tf)) = (s.scheduleOut st tf).2 from rfl, scheduleOut_lastId]
  | switchTo now tf => rw [show (s.runOp (.switchTo now tf)) = (s.switchTo now tf).2.2 from rfl, switchTo_lastId]
  | switch st now tf =>
    rw [show (s.runOp (.switch st now tf))
        = ((s.scheduleOut st tf).2.switchTo now tf).2.2 from rfl,
      switchTo_lastId, scheduleOut_lastId]
  | kill tf => rw [show (s.runOp (.kill tf)) = (s.kill tf).2 from rfl, kill_lastId]

theorem runOps_lastId_mono (ops : List SchedOp) (s : Scheduler) :
    lastIdVal s.last_id ≤ lastIdVal (s.runOps ops).last_id := by
  induction ops generalizing s with
  | nil => exact le_refl _
  | cons op rest ih =>
    exact le_trans (runOp_lastId_mono s op) (ih (s.runOp op))

/-- Claim C9: `Scheduler::add` assigns strictly increasing ids (each
successful call returns `last_id + 1` and records it), never reuses an id
(any successful `add` after any sequence of scheduler operations returns a
strictly larger id), and on overflow (`last_id = u64::MAX`) returns `None`
with the queue unchanged. -/
theorem add_ids_monotone_and_overflow (s : Scheduler) (p : Process) :
    (∀ l, s.last_id = some l → l ≠ U64_MAX →
      (s.add p).1 = some (l + 1) ∧ (s.add p).2.last_id = some (l + 1)
        ∧ (s.add p).2.processes.length = s.processes.length + 1)
    ∧ (s.last_id = some U64_MAX →
      (s.add p).1 = none ∧ (s.add p).2.processes = s.processes)
    ∧ (∀ i, (s.add p).1 = some i →
      lastIdVal s.last_id < i
      ∧ ∀ ops p2 j, (((s.add p).2.runOps ops).add p2).1 = some j → i < j) := by
  refine ⟨?_, ?_, ?_⟩
  · intro l hl hm
    refine ⟨?_, ?_, ?_⟩ <;> simp [Scheduler.add, hl, hm]
  · intro hl
    refine ⟨?_, ?_⟩ <;> simp [Scheduler.add, hl]
  · intro i hi
    obtain ⟨hival, hlast⟩ := add_result s p i hi
    constructor
    · omega
    · intro ops p2 j hj
      obtain ⟨hjval, _⟩ := add_result _ p2 j hj
      have hmono : lastIdVal (s.add p).2.last_id
          ≤ lastIdVal ((s.add p).2.runOps ops).last_id :=
        runOps_lastId_mono ops (s.add p).2
      have hsi : lastIdVal (some i) = i := rfl
      rw [hlast, hsi] at hmono
      omega

/-- A plain Ready process with a default trap frame (used by witnesses and
the round-robin scenario; `Scheduler::add` overwrites its `tpidr_el0`). -/
def idleProcess : Process := ⟨TrapFrame.default, .ready⟩

/-- Witness for C9 on the fresh scheduler. -/
theorem add_ids_monotone_and_overflow_witness :
    Scheduler.new.last_id = some 0 ∧ (0 : Nat) ≠ U64_MAX
    ∧ ((Scheduler.new.add idleProcess).1 = some (0 + 1)
      ∧ (Scheduler.new.add idleProcess).2.last_id = some (0 + 1)
      ∧ (Scheduler.new.add idleProcess).2.processes.length
          = Scheduler.new.processes.length + 1) :=
  ⟨rfl, by decide,
    (add_ids_monotone_and_overflow Scheduler.new idleProcess).1 0 rfl (by decide)⟩

/-- A state whose waiting poll (if any) never changes the thread-id register
of the frame it mutates.  Every poll in the kernel (the sleep closure) has
this property; an arbitrary boxed closure is only restricted by it. -/
def PState.tidStable (st : PState) : Prop :=
  ∀ f, st = .waiting f → ∀ now ctx, ((f now ctx).2).tpidr_el0 = ctx.tpidr_el0

/-- An operation is stable when any state it injects has tid-stable polls. -/
def SchedOp.stable : SchedOp → Prop
  | .add p => p.state.tidStable
  | .schedOut st _ => st.tidStable
  | .switch st _ _ => st.tidStable
  | _ => True

theorem PState.isRunning_iff (st : PState) : st.isRunning = true ↔ st = .running := by
  cases st <;> simp [PState.isRunning]

theorem removeFirstRunning_spec (tp : Nat) (l : List Process) (p : Process)
    (rest : List Process) (h : removeFirstRunning tp l = some (p, rest)) :
    p.context.tpidr_el0 = tp ∧ p.state = PState.running
    ∧ ∃ l₁ l₂, l = l₁ ++ p :: l₂ ∧ rest = l₁ ++ l₂ := by
  induction l generalizing rest with
  | nil => simp [removeFirstRunning] at h
  | cons q qs ih =>
    rw [removeFirstRunning] at h
    by_cases hc : (q.context.tpidr_el0 == tp && q.state.isRunning) = true
    · rw [if_pos hc] at h
      cases h
      rw [Bool.and_eq_true, beq_iff_eq, PState.isRunning_iff] at hc
      exact ⟨hc.1, hc.2, [], qs, rfl, rfl⟩
    · rw [if_neg hc] at h
      cases hr : removeFirstRunning tp qs with
      | none => rw [hr] at h; cases h
      | some pr =>
        obtain ⟨p', rest'⟩ := pr
        rw [hr] at h
        cases h
        obtain ⟨h1, h2, l₁, l₂, hl, hrest⟩ := ih rest' hr
        exact ⟨h1, h2, q :: l₁, l₂, by rw [hl]; rfl, by rw [hrest]; rfl⟩

theorem removeFirstRunning_isSome (tp : Nat) (l : List Process)
    (hex : ∃ p ∈ l, p.context.tpidr_el0 = tp ∧ p.state = PState.running) :
    ∃ pr, removeFirstRunning tp l = some pr := by
  induction l with
  | nil => obtain ⟨p, hp, _⟩ := hex; cases hp
  | cons q qs ih =>
    rw [removeFirstRunning]
    by_cases hc : (q.context.tpidr_el0 == tp && q.state.isRunning) = true
    · exact ⟨(q, qs), by rw [if_pos hc]⟩
    · obtain ⟨p, hp, h1, h2⟩ := hex
      cases hp with
      | head =>
        exfalso
        apply hc
        rw [Bool.and_eq_true, beq_iff_eq, PState.isRunning_iff]
        exact ⟨h1, h2⟩
      | tail _ hmem =>
        obtain ⟨⟨p', rest'⟩, hr⟩ := ih ⟨p, hmem, h1, h2⟩
        exact ⟨(p', q :: rest'), by rw [if_neg hc, hr]⟩

theorem isReady_stable (now : Nat) (p : Process) (hp : p.state.tidStable) :
    ((Process.isReady now p).2).context.tpidr_el0 = p.context.tpidr_el0
    ∧ ((Process.isReady now p).2).state.tidStable := by
  obtain ⟨ctx0, st0⟩ := p
  cases st0 with
  | waiting f =>
    cases hf : f now ctx0 with
    | mk b ctx =>
      have hf0 := hp f rfl now ctx0
      rw [hf] at hf0
      cases b with
      | true =>
        refine ⟨?_, ?_⟩
        · simp only [Process.isReady, hf]
          exact hf0
        · simp only [Process.isReady, hf]
          intro f' hh
          cases hh
      | false =>
        refine ⟨?_, ?_⟩
        · simp only [Process.isReady, hf]
          exact hf0
        · simp only [Process.isReady, hf]
          intro f' hh now' ctx'
          cases hh
          exact hp f rfl now' ctx'
  | ready => exact ⟨rfl, hp⟩
  | running => exact ⟨rfl, hp⟩
  | dead => exact ⟨rfl, hp⟩

/-- The per-process part of the "id `k` is gone" invariant. -/
def ProcOk (k : Nat) (p : Process) : Prop :=
  p.state.tidStable ∧ p.context.tpidr_el0 ≠ k

/-- Invariant: no queued process carries id `k`, polls are tid-stable, and
`k` is at most the last assigned id (so `add` can never mint it again). -/
def SchedInv (k : Nat) (s : Scheduler) : Prop :=
  (∀ p ∈ s.processes, ProcOk k p) ∧ k ≤ lastIdVal s.last_id

theorem switchScan_spec (now k : Nat) (l : List Process)
    (hall : ∀ p ∈ l, ProcOk k p) :
    (∀ q ∈ (switchScan now l).1, ProcOk k q)
    ∧ (∀ p suf, (switchScan now l).2 = some (p, suf) →
        ProcOk k p ∧ ∀ q ∈ suf, ProcOk k q) := by
  induction l with
  | nil =>
    refine ⟨?_, ?_⟩
    · intro q hq; simp [switchScan] at hq
    · intro p suf h; simp [switchScan] at h
  | cons q qs ih =>
    have hq := hall q (List.mem_cons_self q qs)
    have hqs : ∀ p ∈ qs, ProcOk k p := fun p hp => hall p (List.mem_cons_of_mem q hp)
    obtain ⟨htid, hstb⟩ := isReady_stable now q hq.1
    have hq1 : ProcOk k (Process.isReady now q).2 := ⟨hstb, by rw [htid]; exact hq.2⟩
    obtain ⟨ihpre, ihfound⟩ := ih hqs
    rw [switchScan]
    cases hr : Process.isReady now q with
    | mk b q1 =>
      have hq1' : ProcOk k q1 := by rw [hr] at hq1; exact hq1
      cases b with
      | true =>
        refine ⟨?_, ?_⟩
        · intro x hx; simp at hx
        · intro p suf h
          simp only at h
          cases h
          exact ⟨hq1', hqs⟩
      | false =>
        cases hs : switchScan now qs with
        | mk pre r =>
          rw [hs] at ihpre ihfound
          refine ⟨?_, ?_⟩
          · intro x hx
            simp only at hx
            cases hx with
            | head => exact hq1'
            | tail _ hx => exact ihpre x hx
          · intro p suf h
            simp only at h
            exact ihfound p suf h

theorem switchTo_inv (k : Nat) (s : Scheduler) (now : Nat) (tf : TrapFrame)
    (hinv : SchedInv k s) :
    SchedInv k ((s.switchTo now tf).2.2) ∧ (s.switchTo now tf).1 ≠ some k := by
  obtain ⟨hall, hle⟩ := hinv
  obtain ⟨hpre, hfound⟩ := switchScan_spec now k s.processes hall
  rw [Scheduler.switchTo]
  cases hs : switchScan now s.processes with
  | mk pre r =>
    rw [hs] at hpre hfound
    cases r with
    | none => exact ⟨⟨hpre, hle⟩, by simp⟩
    | some pr =>
      obtain ⟨p, suf⟩ := pr
      obtain ⟨hpok, hsuf⟩ := hfound p suf rfl
      refine ⟨⟨?_, hle⟩, ?_⟩
      · intro q hq
        simp only [List.mem_cons, List.mem_append] at hq
        rcases hq with rfl | hq | hq
        · exact ⟨fun f hh => PState.noConfusion hh, hpok.2⟩
        · exact hpre q hq
        · exact hsuf q hq
      · simp only [ne_eq, Option.some.injEq]
        exact hpok.2

theorem scheduleOut_inv (k : Nat) (s : Scheduler) (st : PState) (tf : TrapFrame)
    (hst : st.tidStable) (hinv : SchedInv k s) :
    SchedInv k ((s.scheduleOut st tf).2) := by
  obtain ⟨hall, hle⟩ := hinv
  rw [Scheduler.scheduleOut]
  cases hr : removeFirstRunning tf.tpidr_el0 s.processes with
  | none => exact ⟨hall, hle⟩
  | some pr =>
    obtain ⟨p, rest⟩ := pr
    obtain ⟨htp, _, l₁, l₂, hl, hrest⟩ := removeFirstRunning_spec _ _ _ _ hr
    have hmem : ∀ q ∈ rest, q ∈ s.processes := by
      intro q hq
      rw [hrest] at hq
      rw [hl]
      rcases List.mem_append.1 hq with h | h
      · exact List.mem_append.2 (Or.inl h)
      · exact List.mem_append.2 (Or.inr (List.mem_cons_of_mem _ h))
    refine ⟨?_, hle⟩
    intro q hq
    rcases List.mem_append.1 hq with h | h
    · exact hall q (hmem q h)
    · rcases List.mem_singleton.1 h with rfl
      have hpin : p ∈ s.processes := by
        rw [hl]; exact List.mem_append.2 (Or.inr (List.mem_cons_self _ _))
      refine ⟨hst, ?_⟩
      show tf.tpidr_el0 ≠ k
      rw [← htp]
      exact (hall p hpin).2

theorem mem_dropLast (l : List Process) (q : Process) (h : q ∈ l.dropLast) :
    q ∈ l := by
  induction l with
  | nil => simp at h
  | cons a as ih =>
    cases as with
    | nil => simp at h
    | cons b bs =>
      rw [List.dropLast_cons₂] at h
      rcases List.mem_cons.1 h with rfl | h
      · exact List.mem_cons_self _ _
      · exact List.mem_cons_of_mem _ (ih h)

theorem kill_inv (k : Nat) (s : Scheduler) (tf : TrapFrame)
    (hinv : SchedInv k s) : SchedInv k ((s.kill tf).2) := by
  have h1 : SchedInv k ((s.scheduleOut .dead tf).2) :=
    scheduleOut_inv k s .dead tf (fun f hh => by cases hh) hinv
  rw [Scheduler.kill]
  cases hg : ((s.scheduleOut .dead tf).2).processes.getLast? with
  | none => exact h1
  | some p =>
    refine ⟨?_, h1.2⟩
    intro q hq
    exact h1.1 q (mem_dropLast _ q hq)

theorem add_inv (k : Nat) (s : Scheduler) (p : Process)
    (hp : p.state.tidStable) (hinv : SchedInv k s) :
    SchedInv k ((s.add p).2) := by
  obtain ⟨hall, hle⟩ := hinv
  cases hl : s.last_id with
  | none =>
    simp only [Scheduler.add, hl]
    rw [hl] at hle
    have hle0 : k ≤ 0 := hle
    refine ⟨?_, by show k ≤ lastIdVal (some 1); simp only [lastIdVal]; omega⟩
    intro q hq
    rcases List.mem_append.1 hq with h | h
    · exact hall q h
    · rcases List.mem_singleton.1 h with rfl
      refine ⟨hp, ?_⟩
      show (1 : Nat) ≠ k
      simp only [lastIdVal] at hle
      omega
  | some l =>
    rw [hl] at hle
    simp only [lastIdVal] at hle
    by_cases hm : l = U64_MAX
    · simp only [Scheduler.add, hl, if_pos hm]
      exact ⟨hall, by rw [hl]; exact hle⟩
    · simp only [Scheduler.add, hl, if_neg hm]
      refine ⟨?_, ?_⟩
      · intro q hq
        rcases List.mem_append.1 hq with h | h
        · exact hall q h
        · rcases List.mem_singleton.1 h with rfl
          exact ⟨hp, by show l + 1 ≠ k; omega⟩
      · show k ≤ lastIdVal (some (l + 1))
        simp only [lastIdVal]
        omega

theorem runOp_inv (k : Nat) (s : Scheduler) (op : SchedOp)
    (hop : op.stable) (hinv : SchedInv k s) : SchedInv k (s.runOp op) := by
  cases op with
  | add p => exact add_inv k s p hop hinv
  | schedOut st tf => exact scheduleOut_inv k s st tf hop hinv
  | switchTo now tf => exact (switchTo_inv k s now tf hinv).1
  | switch st now tf =>
    exact (switchTo_inv k _ now tf (scheduleOut_inv k s st tf hop hinv)).1
  | kill tf => exact kill_inv k s tf hinv

theorem runOps_inv (k : Nat) (ops : List SchedOp) (s : Scheduler)
    (hops : ∀ op ∈ ops, op.stable) (hinv : SchedInv k s) :
    SchedInv k (s.runOps ops) := by
  induction ops generalizing s with
  | nil => exact hinv
  | cons op rest ih =>
    exact ih (s.runOp op) (fun o ho => hops o (List.mem_cons_of_mem op ho))
      (runOp_inv k s op (hops op (List.mem_cons_self op rest)) hinv)

/-- A Ready process whose saved frame carries thread-id `i`. -/
def readyProcess (i : Nat) : Process :=
  ⟨{ TrapFrame.default with tpidr_el0 := i }, .ready⟩

/-- Counterexample to C4 as stated: on the non-empty queue
[Ready(id 1), Ready(id 2)] (no Running process matches the trap frame),
`kill` with `tf.tpidr_el0 = 1` pops and drops the tail process with id 2 —
not the process whose thread-id equals the trap frame's. -/
theorem kill_pops_wrong_process_cex :
    (Scheduler.mk [readyProcess 1, readyProcess 2] (some 2)).processes ≠ []
    ∧ ((Scheduler.mk [readyProcess 1, readyProcess 2] (some 2)).kill
        { TrapFrame.default with tpidr_el0 := 1 }).1 = some 2
    ∧ (2 : Nat) ≠ 1 := by
  refine ⟨by simp, rfl, by decide⟩

/-- Claim C4 (amended with the precondition that the queue holds a Running
process with the trap frame's thread-id, thread-ids are distinct and
id-bounded by `last_id`, and waiting polls are tid-stable): `kill(tf)`
removes from the tail and drops exactly the just-killed process (it returns
`tf`'s thread-id), the queue length decreases by one, no remaining process
carries that id, and no later `switch_to` — after any stable operation
sequence — ever returns it. -/
theorem kill_removes_killed_process (s : Scheduler) (tf : TrapFrame)
    (hex : ∃ p ∈ s.processes,
      p.context.tpidr_el0 = tf.tpidr_el0 ∧ p.state = PState.running)
    (hnodup : (s.processes.map fun p => p.context.tpidr_el0).Nodup)
    (hbound : tf.tpidr_el0 ≤ lastIdVal s.last_id)
    (hstable : ∀ p ∈ s.processes, p.state.tidStable) :
    (s.kill tf).1 = some tf.tpidr_el0
    ∧ (s.kill tf).2.processes.length + 1 = s.processes.length
    ∧ (∀ p ∈ (s.kill tf).2.processes, p.context.tpidr_el0 ≠ tf.tpidr_el0)
    ∧ ∀ ops, (∀ op ∈ ops, op.stable) → ∀ now tf2,
        ((((s.kill tf).2).runOps ops).switchTo now tf2).1 ≠ some tf.tpidr_el0 := by
  obtain ⟨pr, hr⟩ := removeFirstRunning_isSome tf.tpidr_el0 s.processes hex
  obtain ⟨p, rest⟩ := pr
  obtain ⟨htp, hprun, l₁, l₂, hl, hrest⟩ := removeFirstRunning_spec _ _ _ _ hr
  have hso : (s.scheduleOut .dead tf).2 =
      ⟨rest ++ [{ p with state := .dead, context := tf }], s.last_id⟩ := by
    rw [Scheduler.scheduleOut, hr]
  have hkill : s.kill tf = (some tf.tpidr_el0, ⟨rest, s.last_id⟩) := by
    simp only [Scheduler.kill, hso, List.getLast?_concat, List.dropLast_concat]
  have hrestmem : ∀ q ∈ rest, q ∈ s.processes := by
    intro q hq
    rw [hrest] at hq
    rw [hl]
    rcases List.mem_append.1 hq with h | h
    · exact List.mem_append.2 (Or.inl h)
    · exact List.mem_append.2 (Or.inr (List.mem_cons_of_mem _ h))
  have hrestne : ∀ q ∈ rest, q.context.tpidr_el0 ≠ tf.tpidr_el0 := by
    rw [hl, List.map_append, List.map_cons, List.nodup_append] at hnodup
    obtain ⟨hn1, hn2, hdisj⟩ := hnodup
    have hn2' := (List.nodup_cons.1 hn2).1
    intro q hq hqk
    rw [hrest] at hq
    rcases List.mem_append.1 hq with h | h
    · exact hdisj (List.mem_map_of_mem _ h)
        (by rw [hqk, ← htp]; exact List.mem_cons_self _ _)
    · apply hn2'
      rw [htp, ← hqk]
      exact List.mem_map_of_mem _ h
  have hinv : SchedInv tf.tpidr_el0 ((s.kill tf).2) := by
    rw [hkill]
    exact ⟨fun q hq => ⟨hstable q (hrestmem q hq), hrestne q hq⟩, hbound⟩
  refine ⟨by rw [hkill], ?_, ?_, ?_⟩
  · rw [hkill, hl, hrest]
    simp only [List.length_append, List.length_cons]
    omega
  · intro q hq
    rw [hkill] at hq
    exact hrestne q hq
  · intro ops hops now tf2
    exact (switchTo_inv tf.tpidr_el0 _ now tf2
      (runOps_inv tf.tpidr_el0 ops _ hops hinv)).2

/-- Witness for C4 on a singleton queue holding the Running process 1. -/
theorem kill_removes_killed_process_witness :
    ((Scheduler.mk [⟨{ TrapFrame.default with tpidr_el0 := 1 }, .running⟩]
        (some 1)).kill { TrapFrame.default with tpidr_el0 := 1 }).1 = some 1
    ∧ ((Scheduler.mk [⟨{ TrapFrame.default with tpidr_el0 := 1 }, .running⟩]
        (some 1)).kill
          { TrapFrame.default with tpidr_el0 := 1 }).2.processes.length + 1
      = 1 :=
  have h := kill_removes_killed_process
    (Scheduler.mk [⟨{ TrapFrame.default with tpidr_el0 := 1 }, .running⟩] (some 1))
    { TrapFrame.default with tpidr_el0 := 1 }
    ⟨_, List.mem_cons_self _ _, rfl, rfl⟩
    (by simp)
    (le_refl 1)
    (by
      intro p hp
      rcases List.mem_singleton.1 hp with rfl
      intro f hh
      cases hh)
  ⟨h.1, h.2.1⟩

theorem removeFirstRunning_none (tp : Nat) (l : List Process)
    (h : ∀ p ∈ l, p.state = PState.ready) :
    removeFirstRunning tp l = none := by
  induction l with
  | nil => rfl
  | cons q qs ih =>
    have hq : q.state.isRunning = false := by
      rw [h q (List.mem_cons_self q qs)]; rfl
    rw [removeFirstRunning, if_neg (by simp [hq]),
      ih (fun p hp => h p (List.mem_cons_of_mem q hp))]

theorem isReady_ready (now : Nat) (p : Process) (h : p.state = PState.ready) :
    Process.isReady now p = (true, p) := by
  obtain ⟨c, st⟩ := p
  cases st with
  | ready => rfl
  | running => cases h
  | waiting f => cases h
  | dead => cases h

theorem switch_allReady_step (q : Process) (rest : List Process)
    (lid : Option Nat) (now : Nat) (tf : TrapFrame)
    (hall : ∀ p ∈ q :: rest, p.state = PState.ready) :
    Scheduler.switch ⟨q :: rest, lid⟩ .ready now tf
      = (some q.context.tpidr_el0, q.context,
          ⟨{ q with state := .running } :: rest, lid⟩) := by
  have hrm := removeFirstRunning_none tf.tpidr_el0 (q :: rest) hall
  have hso : Scheduler.scheduleOut ⟨q :: rest, lid⟩ .ready tf
      = (false, ⟨q :: rest, lid⟩) := by
    rw [Scheduler.scheduleOut, hrm]
  rw [Scheduler.switch, hso]
  show Scheduler.switchTo ⟨q :: rest, lid⟩ now tf = _
  have hscan : switchScan now (q :: rest) = ([], some (q, rest)) := by
    rw [switchScan, isReady_ready now q (hall q (List.mem_cons_self q rest))]
  rw [Scheduler.switchTo, hscan]
  rfl

theorem switch_config_step (cur f : Process) (fs back : List Process)
    (lid : Option Nat) (now : Nat) (tf : TrapFrame)
    (hcur : cur.state = PState.running)
    (htf : tf.tpidr_el0 = cur.context.tpidr_el0)
    (hf : f.state = PState.ready) :
    Scheduler.switch ⟨cur :: ((f :: fs) ++ back), lid⟩ .ready now tf
      = (some f.context.tpidr_el0, f.context,
          ⟨{ f with state := .running } ::
            ((fs ++ back) ++ [{ cur with state := .ready, context := tf }]),
            lid⟩) := by
  have hcond : (cur.context.tpidr_el0 == tf.tpidr_el0 && cur.state.isRunning)
      = true := by
    rw [Bool.and_eq_true, beq_iff_eq, PState.isRunning_iff]
    exact ⟨htf.symm, hcur⟩
  have hrm : removeFirstRunning tf.tpidr_el0 (cur :: ((f :: fs) ++ back))
      = some (cur, (f :: fs) ++ back) := by
    rw [removeFirstRunning, if_pos hcond]
  have hso : Scheduler.scheduleOut ⟨cur :: ((f :: fs) ++ back), lid⟩ .ready tf
      = (true, ⟨((f :: fs) ++ back) ++
          [{ cur with state := .ready, context := tf }], lid⟩) := by
    rw [Scheduler.scheduleOut, hrm]
  rw [Scheduler.switch, hso]
  show Scheduler.switchTo
    ⟨f :: ((fs ++ back) ++ [{ cur with state := .ready, context := tf }]), lid⟩
    now tf = _
  have hscan : switchScan now
      (f :: ((fs ++ back) ++ [{ cur with state := .ready, context := tf }]))
      = ([], some (f, (fs ++ back) ++
          [{ cur with state := .ready, context := tf }])) := by
    rw [switchScan, isReady_ready now f hf]
  rw [Scheduler.switchTo, hscan]
  rfl

theorem switchReadyN_rotate (front : List Process) :
    ∀ (cur : Process) (back : List Process) (lid : Option Nat) (now : Nat)
      (tf : TrapFrame),
    cur.state = PState.running → tf.tpidr_el0 = cur.context.tpidr_el0 →
    (∀ p ∈ front, p.state = PState.ready) →
    (∀ p ∈ back, p.state = PState.ready) →
    (Scheduler.switchReadyN ⟨cur :: (front ++ back), lid⟩ front.length now tf).1
      = front.map fun p => some p.context.tpidr_el0 := by
  induction front with
  | nil => intros; rfl
  | cons f fs ih =>
    intro cur back lid now tf hcur htf hfront hback
    have hstep := switch_config_step cur f fs back lid now tf hcur htf
      (hfront f (List.mem_cons_self f fs))
    have ih' := ih { f with state := .running }
      (back ++ [{ cur with state := .ready, context := tf }]) lid now f.context
      rfl rfl
      (fun p hp => hfront p (List.mem_cons_of_mem f hp))
      (fun p hp => by
        rcases List.mem_append.1 hp with h | h
        · exact hback p h
        · rcases List.mem_singleton.1 h with rfl; rfl)
    rw [← List.append_assoc] at ih'
    show (Scheduler.switchReadyN _ (fs.length + 1) now tf).1 = _
    rw [Scheduler.switchReadyN]
    dsimp only
    rw [hstep]
    dsimp only
    rw [ih', List.map_cons]

/-- Claim C5: for a queue of k Ready processes with distinct ids, k
successive `switch(Ready, tf)` calls (with the trap frame threaded through)
select exactly the queue's ids in order (each id once before any repeat);
in particular, adding three processes to a fresh scheduler (ids 1, 2, 3)
and calling switch four times selects 1, 2, 3, 1. -/
theorem roundRobin_switch_selects_in_order :
    (∀ (qs : List Process) (lid : Option Nat) (now : Nat) (tf : TrapFrame),
      (∀ p ∈ qs, p.state = PState.ready) →
      (qs.map fun p => p.context.tpidr_el0).Nodup →
      (Scheduler.switchReadyN ⟨qs, lid⟩ qs.length now tf).1
        = qs.map fun p => some p.context.tpidr_el0)
    ∧ ((((((Scheduler.new.add idleProcess).2.add idleProcess).2.add
          idleProcess).2).switchReadyN 4 0 TrapFrame.default).1
        = [some 1, some 2, some 3, some 1]) := by
  constructor
  · intro qs lid now tf hall _hnodup
    cases qs with
    | nil => rfl
    | cons q rest =>
      have hstep := switch_allReady_step q rest lid now tf hall
      have ih := switchReadyN_rotate rest { q with state := .running } [] lid
        now q.context rfl rfl
        (fun p hp => hall p (List.mem_cons_of_mem q hp))
        (fun p hp => absurd hp (List.not_mem_nil p))
      rw [List.append_nil] at ih
      show (Scheduler.switchReadyN _ (rest.length + 1) now tf).1 = _
      rw [Scheduler.switchReadyN]
      dsimp only
      rw [hstep]
      dsimp only
      rw [ih, List.map_cons]
  · rfl

/-- Witness for C5's general part: a single Ready process with id 7. -/
theorem roundRobin_switch_selects_in_order_witness :
    (∀ p ∈ [readyProcess 7], p.state = PState.ready)
    ∧ (([readyProcess 7].map fun p => p.context.tpidr_el0).Nodup)
    ∧ (Scheduler.switchReadyN ⟨[readyProcess 7], none⟩
        ([readyProcess 7].length) 0 TrapFrame.default).1
      = [readyProcess 7].map fun p => some p.context.tpidr_el0 :=
  ⟨fun p hp => by rcases List.mem_singleton.1 hp with rfl; rfl,
    by simp,
    roundRobin_switch_selects_in_order.1 [readyProcess 7] none 0 TrapFrame.default
      (fun p hp => by rcases List.mem_singleton.1 hp with rfl; rfl)
      (by simp)⟩

/-! ## The sleep syscall (src/kern/src/traps/syscall.rs) -/

/-- The boxed closure built by `sys_sleep` in syscall.rs: on every poll it
reads the wall time (here `now`, in nanoseconds), stores 1 in `x[7]` and
the elapsed whole milliseconds (`curr.as_millis() - ini.as_millis()`, cast
`as u64`) in `x[0]`, and fires exactly when `curr_time > ini_time +
sleep_dur` (strictly after `ini + ms` milliseconds). -/
def sleepPoll (ms ini : Nat) : Nat → TrapFrame → Bool × TrapFrame :=
  fun now ctx =>
    (decide (now > ini + ms * 1000000),
      { ctx with
        x := (ctx.x.set 7 1).set 0 ((now / 1000000 - ini / 1000000) % 2 ^ 64) })

/-- `sys_sleep` from syscall.rs: record the current time, then
`SCHEDULER.switch(State::Waiting(sleep_fn), tf)`. -/
def sys_sleep (ms : Nat) (tf : TrapFrame) (s : Scheduler) (now : Nat) :
    Option Nat × TrapFrame × Scheduler :=
  s.switch (.waiting (sleepPoll ms now)) now tf

theorem getD_set_self (l : List Nat) (i a : Nat) (h : i < l.length) :
    (l.set i a).getD i 0 = a := by
  rw [List.getD_eq_getElem?_getD, List.getElem?_set_self h, Option.getD_some]

theorem getD_set_ne (l : List Nat) (i j a : Nat) (h : i ≠ j) :
    (l.set i a).getD j 0 = l.getD j 0 := by
  rw [List.getD_eq_getElem?_getD, List.getElem?_set_ne h,
    ← List.getD_eq_getElem?_getD]

/-- Claim C10: a process issuing `sleep(ms)` at wall time T is put into
Waiting with the sleep poll; the poll returns true exactly when wall time
exceeds T + ms; until then the process is never selected, and when next
selected (at time `now > T + ms`), the restored frame has `x7 = 1` and
`x0 = elapsed milliseconds ≥ ms`. -/
theorem sleep_poll_fires_after_deadline (ms T : Nat) (tf ctx0 : TrapFrame)
    (lid : Option Nat) (htp : ctx0.tpidr_el0 = tf.tpidr_el0)
    (hx : tf.x.length = 30) :
    (∀ now ctx, ((sleepPoll ms T) now ctx).1 = true ↔ T + ms * 1000000 < now)
    ∧ ((sys_sleep ms tf (Scheduler.mk [⟨ctx0, .running⟩] lid) T).1 = none
      ∧ (sys_sleep ms tf (Scheduler.mk [⟨ctx0, .running⟩] lid) T).2.2.processes
          = [⟨(sleepPoll ms T T tf).2, .waiting (sleepPoll ms T)⟩])
    ∧ (∀ now tf2,
        (((sys_sleep ms tf (Scheduler.mk [⟨ctx0, .running⟩] lid) T).2.2).switchTo
            now tf2).1 = some tf.tpidr_el0
          ↔ T + ms * 1000000 < now)
    ∧ (∀ now tf2, T + ms * 1000000 < now → now / 1000000 < 2 ^ 64 →
        ((((sys_sleep ms tf (Scheduler.mk [⟨ctx0, .running⟩] lid) T).2.2).switchTo
            now tf2).2.1.x.getD 7 0 = 1
        ∧ (((sys_sleep ms tf (Scheduler.mk [⟨ctx0, .running⟩] lid) T).2.2).switchTo
            now tf2).2.1.x.getD 0 0 = now / 1000000 - T / 1000000
        ∧ ms ≤ (((sys_sleep ms tf (Scheduler.mk [⟨ctx0, .running⟩] lid) T).2.2).switchTo
            now tf2).2.1.x.getD 0 0)) := by
  have hfire : ∀ now ctx, ((sleepPoll ms T) now ctx).1 = true ↔ T + ms * 1000000 < now := by
    intro now ctx
    show (decide (T + ms * 1000000 < now)) = true ↔ _
    rw [decide_eq_true_eq]
  -- compute `sys_sleep` on the singleton queue
  have hcond : (ctx0.tpidr_el0 == tf.tpidr_el0 && PState.running.isRunning) = true := by
    rw [Bool.and_eq_true, beq_iff_eq]
    exact ⟨htp, rfl⟩
  have hrm : removeFirstRunning tf.tpidr_el0 [⟨ctx0, .running⟩]
      = some (⟨ctx0, .running⟩, []) := by
    rw [removeFirstRunning, if_pos hcond]
  have hso : Scheduler.scheduleOut ⟨[⟨ctx0, .running⟩], lid⟩
      (.waiting (sleepPoll ms T)) tf
      = (true, ⟨[⟨tf, .waiting (sleepPoll ms T)⟩], lid⟩) := by
    rw [Scheduler.scheduleOut, hrm]
    rfl
  have hdecT : decide (T + ms * 1000000 < T) = false := decide_eq_false (by omega)
  have hpT : sleepPoll ms T T tf = (false, (sleepPoll ms T T tf).2) := by
    show (decide (T + ms * 1000000 < T), (sleepPoll ms T T tf).2)
      = (false, (sleepPoll ms T T tf).2)
    rw [hdecT]
  have hirT : Process.isReady T ⟨tf, .waiting (sleepPoll ms T)⟩
      = (false, ⟨(sleepPoll ms T T tf).2, .waiting (sleepPoll ms T)⟩) := by
    simp only [Process.isReady]
    rw [hpT]
  have hscanT : switchScan T [⟨tf, .waiting (sleepPoll ms T)⟩]
      = ([⟨(sleepPoll ms T T tf).2, .waiting (sleepPoll ms T)⟩], none) := by
    rw [switchScan, hirT]
    rfl
  have hs : sys_sleep ms tf (Scheduler.mk [⟨ctx0, .running⟩] lid) T
      = (none, tf,
          ⟨[⟨(sleepPoll ms T T tf).2, .waiting (sleepPoll ms T)⟩], lid⟩) := by
    rw [sys_sleep, Scheduler.switch, hso]
    show Scheduler.switchTo ⟨[⟨tf, .waiting (sleepPoll ms T)⟩], lid⟩ T tf = _
    rw [Scheduler.switchTo, hscanT]
  -- the context stored while waiting keeps tf's thread id and length-30 x
  have hctxA_tid : ((sleepPoll ms T T tf).2).tpidr_el0 = tf.tpidr_el0 := rfl
  have hctxA_x : ((sleepPoll ms T T tf).2).x.length = 30 := by
    show ((tf.x.set 7 1).set 0 _).length = 30
    rw [List.length_set, List.length_set, hx]
  refine ⟨hfire, ⟨by rw [hs], by rw [hs]⟩, ?_, ?_⟩
  · intro now tf2
    by_cases hn : T + ms * 1000000 < now
    · have hp2 : sleepPoll ms T now ((sleepPoll ms T T tf).2)
          = (true, (sleepPoll ms T now ((sleepPoll ms T T tf).2)).2) := by
        show (decide (T + ms * 1000000 < now), _) = _
        rw [decide_eq_true hn]
        rfl
      have hir2 : Process.isReady now
          ⟨(sleepPoll ms T T tf).2, .waiting (sleepPoll ms T)⟩
          = (true, ⟨(sleepPoll ms T now ((sleepPoll ms T T tf).2)).2, .ready⟩) := by
        simp only [Process.isReady]
        rw [hp2]
      rw [hs]
      show ((Scheduler.switchTo ⟨[⟨(sleepPoll ms T T tf).2,
          .waiting (sleepPoll ms T)⟩], lid⟩ now tf2).1 = some tf.tpidr_el0) ↔ _
      have hscan2 : switchScan now
          [⟨(sleepPoll ms T T tf).2, .waiting (sleepPoll ms T)⟩]
          = ([], some (⟨(sleepPoll ms T now ((sleepPoll ms T T tf).2)).2, .ready⟩, [])) := by
        rw [switchScan, hir2]
      rw [Scheduler.switchTo, hscan2]
      simp only [Option.some.injEq]
      constructor
      · intro _; exact hn
      · intro _; rfl
    · have hp2 : sleepPoll ms T now ((sleepPoll ms T T tf).2)
          = (false, (sleepPoll ms T now ((sleepPoll ms T T tf).2)).2) := by
        show (decide (T + ms * 1000000 < now), _) = _
        rw [decide_eq_false hn]
        rfl
      have hir2 : Process.isReady now
          ⟨(sleepPoll ms T T tf).2, .waiting (sleepPoll ms T)⟩
          = (false, ⟨(sleepPoll ms T now ((sleepPoll ms T T tf).2)).2,
              .waiting (sleepPoll ms T)⟩) := by
        simp only [Process.isReady]
        rw [hp2]
      rw [hs]
      show ((Scheduler.switchTo ⟨[⟨(sleepPoll ms T T tf).2,
          .waiting (sleepPoll ms T)⟩], lid⟩ now tf2).1 = some tf.tpidr_el0) ↔ _
      have hscan2 : switchScan now
          [⟨(sleepPoll ms T T tf).2, .waiting (sleepPoll ms T)⟩]
          = ([⟨(sleepPoll ms T now ((sleepPoll ms T T tf).2)).2,
              .waiting (sleepPoll ms T)⟩], none) := by
        rw [switchScan, hir2]
        rfl
      rw [Scheduler.switchTo, hscan2]
      simp only
      constructor
      · intro h; cases h
      · intro h; exact absurd h hn
  · intro now tf2 hn hb
    have hp2 : sleepPoll ms T now ((sleepPoll ms T T tf).2)
        = (true, (sleepPoll ms T now ((sleepPoll ms T T tf).2)).2) := by
      show (decide (T + ms * 1000000 < now), _) = _
      rw [decide_eq_true hn]
      rfl
    have hir2 : Process.isReady now
        ⟨(sleepPoll ms T T tf).2, .waiting (sleepPoll ms T)⟩
        = (true, ⟨(sleepPoll ms T now ((sleepPoll ms T T tf).2)).2, .ready⟩) := by
      simp only [Process.isReady]
      rw [hp2]
    have hscan2 : switchScan now
        [⟨(sleepPoll ms T T tf).2, .waiting (sleepPoll ms T)⟩]
        = ([], some (⟨(sleepPoll ms T now ((sleepPoll ms T T tf).2)).2, .ready⟩, [])) := by
      rw [switchScan, hir2]
    have hres : (((sys_sleep ms tf (Scheduler.mk [⟨ctx0, .running⟩] lid) T).2.2).switchTo
        now tf2).2.1 = (sleepPoll ms T now ((sleepPoll ms T T tf).2)).2 := by
      rw [hs]
      show ((Scheduler.switchTo ⟨[⟨(sleepPoll ms T T tf).2,
          .waiting (sleepPoll ms T)⟩], lid⟩ now tf2).2.1) = _
      rw [Scheduler.switchTo, hscan2]
    rw [hres]
    have hxlen : (((sleepPoll ms T T tf).2).x.set 7 1).length = 30 := by
      rw [List.length_set, hctxA_x]
    have helapsed : (now / 1000000 - T / 1000000) % 2 ^ 64
        = now / 1000000 - T / 1000000 := by
      apply Nat.mod_eq_of_lt
      have h1 : now / 1000000 - T / 1000000 ≤ now / 1000000 := Nat.sub_le _ _
      omega
    have hx0 : ((sleepPoll ms T now ((sleepPoll ms T T tf).2)).2).x.getD 0 0
        = now / 1000000 - T / 1000000 := by
      show (((((sleepPoll ms T T tf).2).x.set 7 1).set 0 _).getD 0 0) = _
      rw [getD_set_self _ _ _ (by rw [hxlen]; norm_num), helapsed]
    have hx7 : ((sleepPoll ms T now ((sleepPoll ms T T tf).2)).2).x.getD 7 0 = 1 := by
      show (((((sleepPoll ms T T tf).2).x.set 7 1).set 0 _).getD 7 0) = 1
      rw [getD_set_ne _ _ _ _ (by norm_num),
        getD_set_self _ _ _ (by rw [hctxA_x]; norm_num)]
    refine ⟨hx7, hx0, ?_⟩
    rw [hx0]
    have hdiv : (T + ms * 1000000) / 1000000 = T / 1000000 + ms :=
      Nat.add_mul_div_right T ms (by norm_num)
    have hdivle : (T + ms * 1000000) / 1000000 ≤ now / 1000000 :=
      Nat.div_le_div_right (by omega)
    omega

/-- Witness for C10: sleep(100 ms) issued at T = 1000 ns by the default
frame. -/
theorem sleep_poll_fires_after_deadline_witness :
    TrapFrame.default.tpidr_el0 = TrapFrame.default.tpidr_el0
    ∧ TrapFrame.default.x.length = 30
    ∧ ((∀ now ctx, ((sleepPoll 100 1000) now ctx).1 = true ↔ 1000 + 100 * 1000000 < now)
      ∧ ((sys_sleep 100 TrapFrame.default
            (Scheduler.mk [⟨TrapFrame.default, .running⟩] (some 3)) 1000).1 = none
        ∧ (sys_sleep 100 TrapFrame.default
            (Scheduler.mk [⟨TrapFrame.default, .running⟩] (some 3)) 1000).2.2.processes
            = [⟨(sleepPoll 100 1000 1000 TrapFrame.default).2,
                .waiting (sleepPoll 100 1000)⟩])
      ∧ (∀ now tf2,
          (((sys_sleep 100 TrapFrame.default
              (Scheduler.mk [⟨TrapFrame.default, .running⟩] (some 3)) 1000).2.2).switchTo
              now tf2).1 = some TrapFrame.default.tpidr_el0
            ↔ 1000 + 100 * 1000000 < now)
      ∧ (∀ now tf2, 1000 + 100 * 1000000 < now → now / 1000000 < 2 ^ 64 →
          ((((sys_sleep 100 TrapFrame.default
              (Scheduler.mk [⟨TrapFrame.default, .running⟩] (some 3)) 1000).2.2).switchTo
              now tf2).2.1.x.getD 7 0 = 1
          ∧ (((sys_sleep 100 TrapFrame.default
              (Scheduler.mk [⟨TrapFrame.default, .running⟩] (some 3)) 1000).2.2).switchTo
              now tf2).2.1.x.getD 0 0 = now / 1000000 - 1000 / 1000000
          ∧ 100 ≤ (((sys_sleep 100 TrapFrame.default
              (Scheduler.mk [⟨TrapFrame.default, .running⟩] (some 3)) 1000).2.2).switchTo
              now tf2).2.1.x.getD 0 0))) :=
  ⟨rfl, rfl,
    sleep_poll_fires_after_deadline 100 1000 TrapFrame.default TrapFrame.default
      (some 3) rfl rfl⟩

/-! ## Loader (Process::do_load, src/kern/src/process/process.rs) -/

/-- Result of one `file.read(&mut buffer)` into a page-sized buffer. -/
inductive ReadResult where
  | ok (n : Nat)
  | err

/-- The read loop of `do_load`: allocate a page at `va`, read into it; a
full-page read advances `va` and continues; a short read breaks with `va`
still at the final text page; an I/O error fails.  Returns the break-time
`va` and the list of allocated text-page addresses (`none` = IoError, or a
read trace too short to reach a short read). -/
def doLoadLoop : List ReadResult → Nat → List Nat → Option (Nat × List Nat)
  | [], _, _ => none
  | .err :: _, _, _ => none
  | .ok n :: rest, va, pages =>
    if n = PAGE_SIZE then doLoadLoop rest (va + PAGE_SIZE) (pages ++ [va])
    else some (va, pages ++ [va])

/-- `do_load` after the loop (process.rs:97-100): `va += PAGE_SIZE`, the
stack page is allocated at that address, and
`sp_el0 = va + PAGE_SIZE - PAGE_ALIGN` (`PAGE_ALIGN` is the spec's "one
alignment unit", a parameter here since param.rs is not under src/).
Returns (text pages, stack page address, initial sp). -/
def do_load (base pageAlign : Nat) (reads : List ReadResult) :
    Option (List Nat × Nat × Nat) :=
  match doLoadLoop reads base [] with
  | none => none
  | some (va, pages) =>
    some (pages, va + PAGE_SIZE, (va + PAGE_SIZE) + PAGE_SIZE - pageAlign)

/-- Counterexample to C6 as stated: a one-page image (single short read)
loaded at base 0 gets its stack page at address `PAGE_SIZE` — immediately
after the final text page at 0.  No unmapped guard page separates text and
stack (the claim requires the stack at `2 * PAGE_SIZE` with the page
between left unmapped): the short-read branch never advances `va`, so the
single `va += PAGE_SIZE` after the loop lands on the adjacent page. -/
theorem doLoad_no_guard_page_cex :
    do_load 0 16 [ReadResult.ok 100]
      = some ([0], PAGE_SIZE, 2 * PAGE_SIZE - 16)
    ∧ PAGE_SIZE ≠ 2 * PAGE_SIZE := by
  refine ⟨rfl, by decide⟩

theorem doLoadLoop_spec (reads : List ReadResult) :
    ∀ va pages va' pages', doLoadLoop reads va pages = some (va', pages') →
    ∃ m, va' = va + m * PAGE_SIZE
      ∧ pages' = pages ++ (List.range (m + 1)).map fun i => va + i * PAGE_SIZE := by
  induction reads with
  | nil => intro va pages va' pages' h; simp [doLoadLoop] at h
  | cons r rest ih =>
    intro va pages va' pages' h
    cases r with
    | err => simp [doLoadLoop] at h
    | ok n =>
      rw [doLoadLoop] at h
      by_cases hn : n = PAGE_SIZE
      · rw [if_pos hn] at h
        obtain ⟨m, hva, hp⟩ := ih _ _ _ _ h
        refine ⟨m + 1, ?_, ?_⟩
        · rw [hva]; ring
        · rw [hp, List.append_assoc]
          congr 1
          rw [List.singleton_append]
          conv_rhs => rw [List.range_succ_eq_map, List.map_cons, List.map_map]
          congr 1
          apply List.map_congr_left
          intro a _
          simp only [Function.comp_apply, Nat.succ_eq_add_one]
          ring
      · rw [if_neg hn] at h
        cases h
        refine ⟨0, by simp, ?_⟩
        simp [List.range_succ]

/-- Claim C6 (amended): after the read loop ends with a short read, the
stack page is allocated at the page immediately following the final text
page — no guard page is skipped — and the saved user stack pointer is the
top of that stack page minus one alignment unit; exactly one stack page is
allocated and the text pages are the consecutive pages from `base`. -/
theorem doLoad_stack_adjacent (base pageAlign : Nat) (reads : List ReadResult)
    (pages : List Nat) (stackVA sp : Nat)
    (h : do_load base pageAlign reads = some (pages, stackVA, sp)) :
    ∃ m, pages = (List.range (m + 1)).map (fun i => base + i * PAGE_SIZE)
      ∧ pages.getLast? = some (base + m * PAGE_SIZE)
      ∧ stackVA = (base + m * PAGE_SIZE) + PAGE_SIZE
      ∧ sp = stackVA + PAGE_SIZE - pageAlign := by
  rw [do_load] at h
  cases hl : doLoadLoop reads base [] with
  | none => rw [hl] at h; cases h
  | some pr =>
    obtain ⟨va, tpages⟩ := pr
    rw [hl] at h
    cases h
    obtain ⟨m, hva, hp⟩ := doLoadLoop_spec reads base [] va pages hl
    rw [List.nil_append] at hp
    refine ⟨m, hp, ?_, by rw [hva], rfl⟩
    rw [hp, List.range_succ, List.map_append, List.map_cons, List.map_nil,
      List.getLast?_concat]

/-- Witness for C6 at a two-page image (one full read, one short read). -/
theorem doLoad_stack_adjacent_witness :
    do_load 65536 16 [ReadResult.ok 65536, ReadResult.ok 5]
      = some ([65536, 131072], 196608, 262128)
    ∧ ∃ m, [65536, 131072]
          = (List.range (m + 1)).map (fun i => 65536 + i * PAGE_SIZE)
        ∧ [65536, 131072].getLast? = some (65536 + m * PAGE_SIZE)
        ∧ 196608 = (65536 + m * PAGE_SIZE) + PAGE_SIZE
        ∧ 262128 = 196608 + PAGE_SIZE - 16 :=
  ⟨rfl, doLoad_stack_adjacent 65536 16 [ReadResult.ok 65536, ReadResult.ok 5]
    [65536, 131072] 196608 262128 rfl⟩

end RustOS
